import Mathlib

/-!
Verification of the MicroEXIF tag-directory encoder.

The definitions below are a shallow embedding of the C++ sources of the
MicroEXIF repository.  Bytes are modelled as `Nat` values below 256, byte
buffers as `List Nat`, and the machine-integer casts of the source
(`static_cast<uint16_t>`, `static_cast<uint32_t>`) as explicit `% 2^16` /
`% 2^32` operations.  The embedded functions follow `MicroExif.h`
(the header included by `MicroExif.cpp`; its `tagFitsInField` also accepts
SLONG, unlike the older `ExifBuilder.h` variant which is otherwise
byte-for-byte identical).

The target platform of the source is MSVC/x86 (it uses `localtime_s` and
Windows paths), which is little-endian; the `memcpy` calls in the `ExifTag`
constructors therefore store integer values least-significant byte first,
and the embedding fixes that host byte order.
-/

namespace MicroExif

/-- One EXIF/TIFF tag: tag id (`uint16_t`), type code (`uint16_t`),
unit count (`uint32_t`) and the raw value bytes (`std::vector<uint8_t>`). -/
structure ExifTag where
  tag : Nat
  type : Nat
  count : Nat
  value : List Nat
deriving DecidableEq

/-- Byte image of a `uint16_t` laid out by `memcpy` on the little-endian
(MSVC/x86) target: least-significant byte first. -/
def leBytes16 (v : Nat) : List Nat := [v % 256, v / 256 % 256]

/-- Byte image of a `uint32_t` laid out by `memcpy` on the little-endian
(MSVC/x86) target: least-significant byte first. -/
def leBytes32 (v : Nat) : List Nat :=
  [v % 256, v / 256 % 256, v / 65536 % 256, v / 16777216 % 256]

/-- `ExifTag(uint16_t t, uint16_t tp, uint32_t cnt, uint8_t val)`:
the BYTE constructor, `value = { val }`. -/
def ExifTag.ofByte (t tp cnt v : Nat) : ExifTag :=
  ⟨t, tp, cnt, [v % 256]⟩

/-- `ExifTag(uint16_t t, uint16_t tp, uint32_t cnt, uint16_t val)`:
the SHORT constructor, `memcpy(value.data(), &val, 2)` (host order). -/
def ExifTag.ofShort (t tp cnt v : Nat) : ExifTag :=
  ⟨t, tp, cnt, leBytes16 v⟩

/-- `ExifTag(uint16_t t, uint16_t tp, uint32_t cnt, uint32_t val)`:
the LONG constructor, `memcpy(value.data(), &val, 4)` (host order). -/
def ExifTag.ofLong (t tp cnt v : Nat) : ExifTag :=
  ⟨t, tp, cnt, leBytes32 v⟩

/-- `ExifTag(uint16_t t, uint16_t tp, uint32_t cnt, uint32_t num, uint32_t denom)`:
the RATIONAL constructor, `memcpy` of numerator then denominator (host order). -/
def ExifTag.ofRational (t tp cnt num denom : Nat) : ExifTag :=
  ⟨t, tp, cnt, leBytes32 num ++ leBytes32 denom⟩

/-- `ExifTag(uint16_t t, uint16_t tp, const std::string& val)`:
the string constructor; `count = val.size() + 1`, value is the string bytes
followed by the appended `'\0'` terminator. -/
def ExifTag.ofString (t tp : Nat) (s : List Nat) : ExifTag :=
  ⟨t, tp, s.length + 1, s ++ [0]⟩

/-- `ExifBuilder::appendUInt16`: pushes the two bytes of `value`,
high byte first when `bigendian`. -/
def appendUInt16 (vec : List Nat) (value : Nat) (bigendian : Bool := true) : List Nat :=
  if bigendian then
    vec ++ [value / 256 % 256, value % 256]
  else
    vec ++ [value % 256, value / 256 % 256]

/-- `ExifBuilder::appendUInt32`: pushes the four bytes of `value`,
high byte first when `bigendian`. -/
def appendUInt32 (vec : List Nat) (value : Nat) (bigendian : Bool := true) : List Nat :=
  if bigendian then
    vec ++ [value / 16777216 % 256, value / 65536 % 256, value / 256 % 256, value % 256]
  else
    vec ++ [value % 256, value / 256 % 256, value / 65536 % 256, value / 16777216 % 256]

/-- `ExifBuilder::tagFitsInField`: BYTE, SHORT, LONG and SLONG always fit;
ASCII fits when the value is at most 4 bytes; everything else (RATIONAL,
SRATIONAL, UNDEFINED, ...) is stored in extra data. -/
def tagFitsInField (tag : ExifTag) : Bool :=
  if tag.type == 0x0001 || tag.type == 0x0003 || tag.type == 0x0004 || tag.type == 0x0009 then
    true
  else if tag.type == 0x0002 then
    decide (tag.value.length ≤ 4)
  else
    false

/-- `ExifBuilder::writeTagValue`: writes the inline 4-byte field.
`buffer.resize(bufSize + k, 0)` is `buffer ++ List.replicate k 0` and
`buffer[i] = v` is `List.set`.  The source indexes `tag.value[i]` without a
bounds check (undefined behaviour when out of range); the embedding totalises
those reads with `List.getD _ _ 0`, and `writeAccessOK` below records
whether every read is in bounds.  For ASCII the source resizes by
`tag.value.size()` (not 4) and copies the value over the new region. -/
def writeTagValue (buffer : List Nat) (tag : ExifTag) (bigendian : Bool := true) : List Nat :=
  let bufSize := buffer.length
  match tag.type with
  | 0x0001 =>
      (buffer ++ List.replicate 4 0).set bufSize (tag.value.getD 0 0)
  | 0x0003 =>
      ((buffer ++ List.replicate 4 0).set
        (bufSize + (if bigendian then 1 else 0)) (tag.value.getD 0 0)).set
        (bufSize + (if bigendian then 0 else 1)) (tag.value.getD 1 0)
  | 0x0004 | 0x0009 =>
      ((((buffer ++ List.replicate 4 0).set
        (bufSize + (if bigendian then 3 else 0)) (tag.value.getD 0 0)).set
        (bufSize + (if bigendian then 2 else 1)) (tag.value.getD 1 0)).set
        (bufSize + (if bigendian then 1 else 2)) (tag.value.getD 2 0)).set
        (bufSize + (if bigendian then 0 else 3)) (tag.value.getD 3 0)
  | 0x0002 =>
      buffer ++ tag.value
  | _ => buffer

/-- `ExifBuilder::appendExtraData`: appends the value bytes to the extra-data
buffer (reversed in the little-endian non-ASCII branch), advances
`dataOffset` by the value size, and appends one zero padding byte (advancing
`dataOffset` too) when the value size is odd. -/
def appendExtraData (tag : ExifTag) (extraData : List Nat) (dataOffset : Nat)
    (bigendian : Bool) : List Nat × Nat :=
  let data := tag.value
  let st :=
    if bigendian || tag.type == 0x0002 then
      (extraData ++ data, dataOffset + data.length)
    else
      (extraData ++ data.reverse, dataOffset + data.length)
  if data.length % 2 ≠ 0 then (st.1 ++ [0], st.2 + 1) else st

/-- The loop body of `buildExifBlob` for one tag: emit tag id, type and
count, then either the inline value or the `uint32_t` cast of the current
data offset (with the extra-data buffer and offset advanced).
State: (exifBlob, extraData, dataOffset). -/
def processTag (bigendian : Bool) (st : List Nat × List Nat × Nat) (tag : ExifTag) :
    List Nat × List Nat × Nat :=
  let blob := appendUInt32 (appendUInt16 (appendUInt16 st.1 tag.tag bigendian)
    tag.type bigendian) tag.count bigendian
  if tagFitsInField tag then
    (writeTagValue blob tag bigendian, st.2.1, st.2.2)
  else
    let res := appendExtraData tag st.2.1 st.2.2 bigendian
    (appendUInt32 blob (st.2.2 % 4294967296) bigendian, res.1, res.2)

/-- The final length patch of `buildExifBlob`:
`exifLength = static_cast<uint16_t>(size - 2)`, then bytes 2 and 3 are set to
`(exifLength >> 8) & 0xFF` and `exifLength & 0xFF`. -/
def patchLength (exifBlob : List Nat) : List Nat :=
  let exifLength := (exifBlob.length - 2) % 65536
  (exifBlob.set 2 (exifLength / 256 % 256)).set 3 (exifLength % 256)

/-- `ExifBuilder::buildExifBlob`, parameterised over the (hard-coded `true`)
`bigendian` flag and over the extra-data buffer the builder member holds when
the call starts (`extraData` is a member that the method appends to and never
clears).  Returns the blob and the final contents of the member. -/
def buildExifBlobCore (bigendian : Bool) (tags : List ExifTag) (extra0 : List Nat) :
    List Nat × List Nat :=
  let exifBlob : List Nat := [0xFF, 0xE1, 0x00, 0x00] ++ [0x45, 0x78, 0x69, 0x66, 0x00, 0x00]
  let exifBlob := appendUInt16 exifBlob (if bigendian then 0x4D4D else 0x4949) true
  let exifBlob := appendUInt16 exifBlob 0x2A bigendian
  let exifBlob := appendUInt32 exifBlob 0x8 bigendian
  let exifBlob := appendUInt16 exifBlob (tags.length % 65536) bigendian
  let dataOffset := 8 + 2 + tags.length * 12 + 4
  let st := tags.foldl (processTag bigendian) (exifBlob, extra0, dataOffset)
  let exifBlob := appendUInt32 st.1 0 true
  let exifBlob := exifBlob ++ st.2.1
  (patchLength exifBlob, st.2.1)

/-- The builder state: the tag list and the extra-data member buffer. -/
structure ExifBuilder where
  tags : List ExifTag
  extraData : List Nat
deriving DecidableEq

/-- `ExifBuilder::addTag`: unconditionally appends the tag to the list
(there is no built/open state distinction in the source). -/
def ExifBuilder.addTag (b : ExifBuilder) (t : ExifTag) : ExifBuilder :=
  { b with tags := b.tags ++ [t] }

/-- `ExifBuilder::buildExifBlob` as a state transformer on the builder:
returns the blob together with the builder as it is left after the call
(the `extraData` member has grown; `tags` is unchanged). -/
def ExifBuilder.buildExifBlob (b : ExifBuilder) : List Nat × ExifBuilder :=
  let res := buildExifBlobCore true b.tags b.extraData
  (res.1, { b with extraData := res.2 })

/-- The blob produced by the first `buildExifBlob()` call on a fresh builder
holding `tags` (the `extraData` member starts empty). -/
def blobOfTags (tags : List ExifTag) : List Nat :=
  (buildExifBlobCore true tags []).1

/-- The loop of `findFFDBMarker`: scan adjacent byte pairs from the front,
returning the index of the first `FF DB` pair. -/
def findFFDBMarkerAux : List Nat → Nat → Option Nat
  | a :: b :: rest, i =>
      if a == 0xFF && b == 0xDB then some i else findFFDBMarkerAux (b :: rest) (i + 1)
  | _, _ => none

/-- `findFFDBMarker`: index of the first `0xFF 0xDB` pair, scanning from
byte 0; `none` models the thrown `"FFDB marker not found."` error. -/
def findFFDBMarker (jpegData : List Nat) : Option Nat :=
  findFFDBMarkerAux jpegData 0

/-- `writeNewJpegWithExif` with the file reads and writes made explicit:
the source bytes are given, the produced destination bytes are returned.
The source bytes before the first `FF DB` marker, then the blob, then the
rest of the source; the marker search happens before the destination file is
created, so on error nothing is written. -/
def writeNewJpegWithExif (jpegData exifBlob : List Nat) : Except String (List Nat) :=
  match findFFDBMarker jpegData with
  | some pos => Except.ok (jpegData.take pos ++ exifBlob ++ jpegData.drop pos)
  | none => Except.error "FFDB marker not found."

/-- Type unit sizes from the spec table (the code itself never computes
unit sizes; this is used only to state the raw-length invariant):
BYTE=1, ASCII=1, SHORT=2, LONG=4, RATIONAL=8, UNDEFINED=1, SLONG=4,
SRATIONAL=8. -/
def unitSize : Nat → Nat
  | 0x0001 => 1
  | 0x0002 => 1
  | 0x0003 => 2
  | 0x0004 => 4
  | 0x0005 => 8
  | 0x0007 => 1
  | 0x0009 => 4
  | 0x000A => 8
  | _ => 0

/-- Whether every `tag.value[i]` read performed by `writeTagValue` is in
bounds: BYTE reads index 0, SHORT indices 0 and 1, LONG/SLONG indices 0..3;
the ASCII branch and the default branch perform no indexed read. -/
def writeAccessOK (tag : ExifTag) : Bool :=
  match tag.type with
  | 0x0001 => decide (1 ≤ tag.value.length)
  | 0x0003 => decide (2 ≤ tag.value.length)
  | 0x0004 | 0x0009 => decide (4 ≤ tag.value.length)
  | _ => true

/-! ### Layout observations

Derived descriptions of the byte layout `buildExifBlob` produces, proved
below to coincide with the fold the builder actually runs. -/

/-- Length of the zero padding `appendExtraData` adds after a value. -/
def padLen (t : ExifTag) : Nat :=
  if t.value.length % 2 ≠ 0 then 1 else 0

/-- The bytes one offset-routed tag contributes to the extra-data buffer. -/
def chunkBytes (bigendian : Bool) (t : ExifTag) : List Nat :=
  (if bigendian || t.type == 0x0002 then t.value else t.value.reverse) ++
    (if t.value.length % 2 ≠ 0 then [0] else [])

/-- How far one tag advances `dataOffset`. -/
def offAdvance (t : ExifTag) : Nat :=
  if tagFitsInField t then 0 else t.value.length + padLen t

/-- The bytes a tag list appends to the extra-data buffer, in order. -/
def extrasBytes (bigendian : Bool) : List ExifTag → List Nat
  | [] => []
  | t :: ts =>
      (if tagFitsInField t then [] else chunkBytes bigendian t) ++ extrasBytes bigendian ts

/-- Total advance of `dataOffset` over a tag list. -/
def extrasLen : List ExifTag → Nat
  | [] => 0
  | t :: ts => offAdvance t + extrasLen ts

/-- Number of bytes the inline value field of `writeTagValue` occupies. -/
def inlineLen (t : ExifTag) : Nat :=
  if t.type = 0x0001 ∨ t.type = 0x0003 ∨ t.type = 0x0004 ∨ t.type = 0x0009 then 4
  else if t.type = 0x0002 then t.value.length
  else 0

/-- The two bytes `appendUInt16` pushes. -/
def u16Bytes (v : Nat) (bigendian : Bool) : List Nat :=
  if bigendian then [v / 256 % 256, v % 256] else [v % 256, v / 256 % 256]

/-- The four bytes `appendUInt32` pushes. -/
def u32Bytes (v : Nat) (bigendian : Bool) : List Nat :=
  if bigendian then [v / 16777216 % 256, v / 65536 % 256, v / 256 % 256, v % 256]
  else [v % 256, v / 256 % 256, v / 65536 % 256, v / 16777216 % 256]

/-- The directory entry emitted for one tag at the given `dataOffset`. -/
def entryBytes (bigendian : Bool) (t : ExifTag) (off : Nat) : List Nat :=
  u16Bytes t.tag bigendian ++ u16Bytes t.type bigendian ++ u32Bytes t.count bigendian ++
    (if tagFitsInField t then writeTagValue [] t bigendian
     else u32Bytes (off % 4294967296) bigendian)

/-- All directory entries of a tag list, threading `dataOffset`. -/
def entriesBytes (bigendian : Bool) : List ExifTag → Nat → List Nat
  | [], _ => []
  | t :: ts, off => entryBytes bigendian t off ++ entriesBytes bigendian ts (off + offAdvance t)

/-- Total size of the emitted directory entries. -/
def entriesLen : List ExifTag → Nat
  | [] => 0
  | t :: ts => (8 + (if tagFitsInField t then inlineLen t else 4)) + entriesLen ts

/-- The 20 bytes preceding the directory entries: APP1 marker and length
placeholder, `"Exif\0\0"`, TIFF header, and the entry count. -/
def preamble (bigendian : Bool) (n : Nat) : List Nat :=
  [0xFF, 0xE1, 0x00, 0x00] ++ [0x45, 0x78, 0x69, 0x66, 0x00, 0x00] ++
    u16Bytes (if bigendian then 0x4D4D else 0x4949) true ++
    u16Bytes 0x2A bigendian ++ u32Bytes 0x8 bigendian ++ u16Bytes (n % 65536) bigendian

/-- The TIFF-relative offset and raw value of every offset-routed tag, in
visitation order, starting from the given `dataOffset`. -/
def extraChunkList : List ExifTag → Nat → List (Nat × List Nat)
  | [], _ => []
  | t :: ts, off =>
      if tagFitsInField t then extraChunkList ts off
      else (off, t.value) :: extraChunkList ts (off + t.value.length + padLen t)

/-- Big-endian 32-bit decode of four blob bytes starting at position `p`. -/
def decodeBE32 (l : List Nat) (p : Nat) : Nat :=
  l.getD p 0 * 16777216 + l.getD (p + 1) 0 * 65536 + l.getD (p + 2) 0 * 256 + l.getD (p + 3) 0

/-- Position `i` of the byte stream holds the marker pair `FF DB` that the
injector scans for. -/
def hasFFDBAt (l : List Nat) (i : Nat) : Prop :=
  i + 1 < l.length ∧ l.getD i 0 = 0xFF ∧ l.getD (i + 1) 0 = 0xDB

instance (l : List Nat) (i : Nat) : Decidable (hasFFDBAt l i) := by
  unfold hasFFDBAt
  infer_instance

/-! ### Basic lemmas -/

lemma set_append_right (l r : List Nat) (i a : Nat) :
    (l ++ r).set (l.length + i) a = l ++ r.set i a := by
  induction l with
  | nil => simp
  | cons x xs ih => simp [List.set, Nat.succ_add, ih]

lemma appendUInt16_eq (vec : List Nat) (v : Nat) (be : Bool) :
    appendUInt16 vec v be = vec ++ u16Bytes v be := by
  cases be <;> simp [appendUInt16, u16Bytes]

lemma appendUInt32_eq (vec : List Nat) (v : Nat) (be : Bool) :
    appendUInt32 vec v be = vec ++ u32Bytes v be := by
  cases be <;> simp [appendUInt32, u32Bytes]

lemma length_u16Bytes (v : Nat) (be : Bool) : (u16Bytes v be).length = 2 := by
  cases be <;> rfl

lemma length_u32Bytes (v : Nat) (be : Bool) : (u32Bytes v be).length = 4 := by
  cases be <;> rfl

lemma writeTagValue_eq_append (buffer : List Nat) (t : ExifTag) (be : Bool) :
    writeTagValue buffer t be = buffer ++ writeTagValue [] t be := by
  unfold writeTagValue
  split
  · have h0 := set_append_right buffer (List.replicate 4 0) 0 (t.value.getD 0 0)
    simpa using h0.symm
  · have h0 := set_append_right buffer (List.replicate 4 0)
      (if be then 1 else 0) (t.value.getD 0 0)
    simp only [List.length_append, List.length_nil, Nat.zero_add, List.nil_append] at h0 ⊢
    rw [h0, set_append_right]
  · simp only [List.length_append, List.length_nil, Nat.zero_add, List.nil_append]
    rw [set_append_right, set_append_right, set_append_right, set_append_right]
  · simp only [List.length_append, List.length_nil, Nat.zero_add, List.nil_append]
    rw [set_append_right, set_append_right, set_append_right, set_append_right]
  · simp
  · simp

lemma length_writeTagValue (buffer : List Nat) (t : ExifTag) (be : Bool) :
    (writeTagValue buffer t be).length = buffer.length + inlineLen t := by
  unfold writeTagValue
  split
  · rename_i h; simp [inlineLen, h, List.length_set]
  · rename_i h; simp [inlineLen, h, List.length_set]
  · rename_i h; simp [inlineLen, h, List.length_set]
  · rename_i h; simp [inlineLen, h, List.length_set]
  · rename_i h; simp [inlineLen, h]
  · rename_i h1 h2 h3 h4 h5
    have hA : ¬ (t.type = 1 ∨ t.type = 3 ∨ t.type = 4 ∨ t.type = 9) := by
      rintro (h | h | h | h)
      · exact h1 h
      · exact h2 h
      · exact h3 h
      · exact h4 h
    simp only [inlineLen, if_neg hA]
    have h5' : ¬ t.type = 2 := h5
    simp [h5']

lemma length_chunkBytes (be : Bool) (t : ExifTag) :
    (chunkBytes be t).length = t.value.length + padLen t := by
  unfold chunkBytes padLen
  split <;> split <;> simp_all

lemma length_extrasBytes (be : Bool) (tags : List ExifTag) :
    (extrasBytes be tags).length = extrasLen tags := by
  induction tags with
  | nil => rfl
  | cons t ts ih =>
      unfold extrasBytes extrasLen offAdvance
      by_cases h : tagFitsInField t <;> simp [h, ih, length_chunkBytes]

lemma length_entryBytes (be : Bool) (t : ExifTag) (off : Nat) :
    (entryBytes be t off).length = 8 + (if tagFitsInField t then inlineLen t else 4) := by
  unfold entryBytes
  by_cases h : tagFitsInField t <;>
    simp [h, length_u16Bytes, length_u32Bytes, length_writeTagValue] <;> omega

lemma length_entriesBytes (be : Bool) (tags : List ExifTag) :
    ∀ off, (entriesBytes be tags off).length = entriesLen tags := by
  induction tags with
  | nil => intro off; rfl
  | cons t ts ih =>
      intro off
      unfold entriesBytes entriesLen
      simp [length_entryBytes, ih]

lemma appendExtraData_spec (t : ExifTag) (extra : List Nat) (off : Nat) (be : Bool) :
    appendExtraData t extra off be =
      (extra ++ chunkBytes be t, off + t.value.length + padLen t) := by
  unfold appendExtraData chunkBytes padLen
  by_cases hb : (be || t.type == 0x0002) = true <;>
    by_cases ho : t.value.length % 2 ≠ 0 <;>
      simp [hb, ho, Nat.add_assoc]

lemma processTag_fit (be : Bool) (st : List Nat × List Nat × Nat) (t : ExifTag)
    (h : tagFitsInField t = true) :
    processTag be st t = (st.1 ++ entryBytes be t st.2.2, st.2.1, st.2.2) := by
  unfold processTag entryBytes
  rw [writeTagValue_eq_append]
  simp [h, appendUInt16_eq, appendUInt32_eq, List.append_assoc]
  rw [writeTagValue_eq_append]
  simp [List.append_assoc]

lemma processTag_nofit (be : Bool) (st : List Nat × List Nat × Nat) (t : ExifTag)
    (h : tagFitsInField t = false) :
    processTag be st t =
      (st.1 ++ entryBytes be t st.2.2, st.2.1 ++ chunkBytes be t,
        st.2.2 + t.value.length + padLen t) := by
  unfold processTag entryBytes
  rw [appendExtraData_spec]
  simp [h, appendUInt16_eq, appendUInt32_eq, List.append_assoc]

lemma foldl_processTag (be : Bool) (tags : List ExifTag) :
    ∀ (blob extra : List Nat) (off : Nat),
      tags.foldl (processTag be) (blob, extra, off) =
        (blob ++ entriesBytes be tags off, extra ++ extrasBytes be tags,
          off + extrasLen tags) := by
  induction tags with
  | nil => intro blob extra off; simp [entriesBytes, extrasBytes, extrasLen]
  | cons t ts ih =>
      intro blob extra off
      simp only [List.foldl_cons]
      cases h : tagFitsInField t with
      | true =>
          rw [processTag_fit be (blob, extra, off) t h, ih]
          simp [entriesBytes, extrasBytes, extrasLen, offAdvance, h,
            List.append_assoc]
      | false =>
          rw [processTag_nofit be (blob, extra, off) t h, ih]
          simp [entriesBytes, extrasBytes, extrasLen, offAdvance, h,
            List.append_assoc, Nat.add_assoc]

lemma buildExifBlobCore_eq (be : Bool) (tags : List ExifTag) (extra0 : List Nat) :
    buildExifBlobCore be tags extra0 =
      (patchLength (preamble be tags.length ++
          entriesBytes be tags (8 + 2 + tags.length * 12 + 4) ++ [0, 0, 0, 0] ++
          (extra0 ++ extrasBytes be tags)),
        extra0 ++ extrasBytes be tags) := by
  simp only [buildExifBlobCore]
  rw [foldl_processTag]
  have h0 : u32Bytes 0 true = [0, 0, 0, 0] := rfl
  simp [preamble, appendUInt16_eq, appendUInt32_eq, h0, List.append_assoc]

lemma length_patchLength (l : List Nat) : (patchLength l).length = l.length := by
  simp [patchLength]

lemma length_preamble (be : Bool) (n : Nat) : (preamble be n).length = 20 := by
  cases be <;> simp [preamble, length_u16Bytes, length_u32Bytes]

lemma length_blobCore (be : Bool) (tags : List ExifTag) (extra0 : List Nat) :
    (buildExifBlobCore be tags extra0).1.length =
      24 + entriesLen tags + extra0.length + extrasLen tags := by
  rw [buildExifBlobCore_eq]
  simp [length_patchLength, length_preamble, length_entriesBytes, length_extrasBytes]
  omega

lemma getD_set_self (l : List Nat) (i a : Nat) (h : i < l.length) :
    (l.set i a).getD i 0 = a := by
  simp [List.getD, List.getElem?_set_self', h]

lemma getD_set_ne (l : List Nat) (i j a : Nat) (h : i ≠ j) :
    (l.set i a).getD j 0 = l.getD j 0 := by
  simp [List.getD, List.getElem?_set_ne h]

lemma getD_patchLength_2 (l : List Nat) (h : 3 < l.length) :
    (patchLength l).getD 2 0 = (l.length - 2) % 65536 / 256 % 256 := by
  unfold patchLength
  rw [getD_set_ne _ _ _ _ (by omega), getD_set_self _ _ _ (by omega)]

lemma getD_patchLength_3 (l : List Nat) (h : 3 < l.length) :
    (patchLength l).getD 3 0 = (l.length - 2) % 65536 % 256 := by
  unfold patchLength
  rw [getD_set_self _ _ _ (by simp [List.length_set]; omega)]

lemma getD_patchLength_ge (l : List Nat) (i : Nat) (h2 : i ≠ 2) (h3 : i ≠ 3) :
    (patchLength l).getD i 0 = l.getD i 0 := by
  unfold patchLength
  rw [getD_set_ne _ _ _ _ (Ne.symm h3), getD_set_ne _ _ _ _ (Ne.symm h2)]

lemma drop_patchLength (l : List Nat) (k : Nat) (h : 4 ≤ k) :
    (patchLength l).drop k = l.drop k := by
  unfold patchLength
  rw [List.drop_set_of_lt _ _ (by omega : 3 < k), List.drop_set_of_lt _ _ (by omega : 2 < k)]

lemma decodeBE32_append_right (A B : List Nat) (p : Nat) :
    decodeBE32 (A ++ B) (A.length + p) = decodeBE32 B p := by
  unfold decodeBE32
  rw [show A.length + p + 1 = A.length + (p + 1) by omega,
      show A.length + p + 2 = A.length + (p + 2) by omega,
      show A.length + p + 3 = A.length + (p + 3) by omega]
  rw [List.getD_append_right _ _ _ _ (by omega), List.getD_append_right _ _ _ _ (by omega),
      List.getD_append_right _ _ _ _ (by omega), List.getD_append_right _ _ _ _ (by omega)]
  simp

lemma decodeBE32_append_left (A B : List Nat) (p : Nat) (h : p + 3 < A.length) :
    decodeBE32 (A ++ B) p = decodeBE32 A p := by
  unfold decodeBE32
  rw [List.getD_append _ _ _ _ (by omega), List.getD_append _ _ _ _ (by omega),
      List.getD_append _ _ _ _ (by omega), List.getD_append _ _ _ _ (by omega)]

lemma decodeBE32_patchLength (l : List Nat) (p : Nat) (h : 4 ≤ p) :
    decodeBE32 (patchLength l) p = decodeBE32 l p := by
  unfold decodeBE32
  rw [getD_patchLength_ge _ _ (by omega) (by omega), getD_patchLength_ge _ _ (by omega) (by omega),
      getD_patchLength_ge _ _ (by omega) (by omega), getD_patchLength_ge _ _ (by omega) (by omega)]

lemma decodeBE32_u32Bytes (v : Nat) :
    decodeBE32 (u32Bytes v true) 0 = v % 4294967296 := by
  unfold decodeBE32 u32Bytes
  simp [List.getD]
  omega

/-- The inline decision of `tagFitsInField`, characterised: the integer types
BYTE, SHORT, LONG and SLONG always fit (their encoded length is not
inspected); ASCII fits exactly when its value is at most 4 bytes; every other
type never fits. -/
lemma tagFitsInField_iff (t : ExifTag) :
    tagFitsInField t = true ↔
      (t.type = 0x0001 ∨ t.type = 0x0003 ∨ t.type = 0x0004 ∨ t.type = 0x0009 ∨
        (t.type = 0x0002 ∧ t.value.length ≤ 4)) := by
  unfold tagFitsInField
  split_ifs with h1 h2
  · simp only [Bool.or_eq_true, beq_iff_eq] at h1
    simp [h1]
    tauto
  · simp only [beq_iff_eq] at h1 h2
    rw [h2]
    simp
  · simp only [Bool.or_eq_true, beq_iff_eq] at h1 h2
    push_neg at h1
    obtain ⟨⟨⟨n1, n3⟩, n4⟩, n9⟩ := h1
    simp [n1, n3, n4, n9, h2]

lemma entrySize_wf (u : ExifTag)
    (hu : tagFitsInField u = true → u.type = 0x0002 → u.value.length = 4) :
    (8 + (if tagFitsInField u then inlineLen u else 4)) = 12 := by
  by_cases h : tagFitsInField u = true
  · rcases (tagFitsInField_iff u).mp h with h1 | h1 | h1 | h1 | ⟨h1, _⟩
    · simp [h, inlineLen, h1]
    · simp [h, inlineLen, h1]
    · simp [h, inlineLen, h1]
    · simp [h, inlineLen, h1]
    · simp [h, inlineLen, h1, hu h h1]
  · simp [h]

lemma entryBytes_length_wf (u : ExifTag) (off : Nat)
    (hu : tagFitsInField u = true → u.type = 0x0002 → u.value.length = 4) :
    (entryBytes true u off).length = 12 := by
  rw [length_entryBytes]
  exact entrySize_wf u hu

lemma entriesLen_wf (tags : List ExifTag)
    (hA : ∀ u ∈ tags, tagFitsInField u = true → u.type = 0x0002 → u.value.length = 4) :
    entriesLen tags = 12 * tags.length := by
  induction tags with
  | nil => rfl
  | cons u ts ih =>
      unfold entriesLen
      rw [entrySize_wf u (hA u (by simp)), ih (fun v hv => hA v (List.mem_cons_of_mem _ hv))]
      simp [Nat.mul_succ]
      omega

lemma extrasLen_append (l1 l2 : List ExifTag) :
    extrasLen (l1 ++ l2) = extrasLen l1 + extrasLen l2 := by
  induction l1 with
  | nil => simp [extrasLen]
  | cons u ts ih => simp [extrasLen, ih]; omega

lemma extrasLen_take_le (tags : List ExifTag) (i : Nat) :
    extrasLen (tags.take i) ≤ extrasLen tags := by
  conv_rhs => rw [← List.take_append_drop i tags]
  rw [extrasLen_append]
  omega

lemma entries_field_decode :
    ∀ (tags : List ExifTag) (i : Nat) (t : ExifTag) (off : Nat),
      (∀ u ∈ tags, tagFitsInField u = true → u.type = 0x0002 → u.value.length = 4) →
      tags.get? i = some t → tagFitsInField t = false →
      off + extrasLen tags < 4294967296 →
      decodeBE32 (entriesBytes true tags off) (12 * i + 8) =
        off + extrasLen (tags.take i) := by
  intro tags
  induction tags with
  | nil => intro i t off _ hget _ _; simp at hget
  | cons u ts ih =>
      intro i t off hA hget hfit hb
      cases i with
      | zero =>
          have htu : u = t := by simpa using hget
          subst htu
          have hfront : entryBytes true u off =
              (u16Bytes u.tag true ++ u16Bytes u.type true ++ u32Bytes u.count true) ++
                u32Bytes (off % 4294967296) true := by
            unfold entryBytes
            simp [hfit, List.append_assoc]
          have hoff : off < 4294967296 := by omega
          have hcalc : decodeBE32 (entriesBytes true (u :: ts) off) (12 * 0 + 8) = off := by
            calc decodeBE32 (entriesBytes true (u :: ts) off) (12 * 0 + 8)
                = decodeBE32 (entryBytes true u off ++
                    entriesBytes true ts (off + offAdvance u)) 8 := by
                  simp [entriesBytes]
              _ = decodeBE32 (entryBytes true u off) 8 := by
                  apply decodeBE32_append_left
                  rw [length_entryBytes]
                  simp [hfit]
              _ = decodeBE32 ((u16Bytes u.tag true ++ u16Bytes u.type true ++
                    u32Bytes u.count true) ++ u32Bytes (off % 4294967296) true) 8 := by
                  rw [hfront]
              _ = decodeBE32 (u32Bytes (off % 4294967296) true) 0 := by
                  have h8 : (u16Bytes u.tag true ++ u16Bytes u.type true ++
                      u32Bytes u.count true).length = 8 := by
                    simp [length_u16Bytes, length_u32Bytes]
                  have := decodeBE32_append_right
                    (u16Bytes u.tag true ++ u16Bytes u.type true ++ u32Bytes u.count true)
                    (u32Bytes (off % 4294967296) true) 0
                  rw [h8] at this
                  simpa using this
              _ = (off % 4294967296) % 4294967296 := decodeBE32_u32Bytes _
              _ = off := by omega
          rw [hcalc]
          simp [extrasLen]
      | succ i' =>
          have hu12 : (entryBytes true u off).length = 12 :=
            entryBytes_length_wf u off (hA u (by simp))
          have hget' : ts.get? i' = some t := by simpa using hget
          have hA' : ∀ v ∈ ts, tagFitsInField v = true → v.type = 0x0002 →
              v.value.length = 4 := fun v hv => hA v (List.mem_cons_of_mem _ hv)
          have hb' : (off + offAdvance u) + extrasLen ts < 4294967296 := by
            have hc : extrasLen (u :: ts) = offAdvance u + extrasLen ts := rfl
            omega
          have hpos : 12 * (i' + 1) + 8 = (entryBytes true u off).length + (12 * i' + 8) := by
            rw [hu12]; omega
          calc decodeBE32 (entriesBytes true (u :: ts) off) (12 * (i' + 1) + 8)
              = decodeBE32 (entryBytes true u off ++
                  entriesBytes true ts (off + offAdvance u))
                  ((entryBytes true u off).length + (12 * i' + 8)) := by
                rw [← hpos]; simp [entriesBytes]
            _ = decodeBE32 (entriesBytes true ts (off + offAdvance u)) (12 * i' + 8) :=
                decodeBE32_append_right _ _ _
            _ = (off + offAdvance u) + extrasLen (ts.take i') :=
                ih i' t (off + offAdvance u) hA' hget' hfit hb'
            _ = off + extrasLen ((u :: ts).take (i' + 1)) := by
                simp [List.take_succ_cons, extrasLen]
                omega

lemma extras_slice :
    ∀ (tags : List ExifTag) (i : Nat) (t : ExifTag),
      tags.get? i = some t → tagFitsInField t = false →
      ((extrasBytes true tags).drop (extrasLen (tags.take i))).take t.value.length =
        t.value := by
  intro tags
  induction tags with
  | nil => intro i t hget _; simp at hget
  | cons u ts ih =>
      intro i t hget hfit
      cases i with
      | zero =>
          have htu : u = t := by simpa using hget
          subst htu
          have he : extrasBytes true (u :: ts) =
              u.value ++ ((if u.value.length % 2 ≠ 0 then [0] else []) ++
                extrasBytes true ts) := by
            simp [extrasBytes, hfit, chunkBytes, List.append_assoc]
          rw [he]
          simp only [List.take_zero, extrasLen, List.drop_zero]
          exact List.take_left _ _
      | succ i' =>
          have hget' : ts.get? i' = some t := by simpa using hget
          by_cases hu : tagFitsInField u = true
          · have he : extrasBytes true (u :: ts) = extrasBytes true ts := by
              simp [extrasBytes, hu]
            have hl : extrasLen ((u :: ts).take (i' + 1)) = extrasLen (ts.take i') := by
              simp [List.take_succ_cons, extrasLen, offAdvance, hu]
            rw [he, hl]
            exact ih i' t hget' hfit
          · have he : extrasBytes true (u :: ts) =
                chunkBytes true u ++ extrasBytes true ts := by
              simp [extrasBytes, hu]
            have hl : extrasLen ((u :: ts).take (i' + 1)) =
                (chunkBytes true u).length + extrasLen (ts.take i') := by
              simp [List.take_succ_cons, extrasLen, offAdvance, hu, length_chunkBytes]
            rw [he, hl, List.drop_append]
            exact ih i' t hget' hfit

lemma blobOfTags_eq (tags : List ExifTag) :
    blobOfTags tags =
      patchLength (preamble true tags.length ++
        entriesBytes true tags (8 + 2 + tags.length * 12 + 4) ++ [0, 0, 0, 0] ++
        extrasBytes true tags) := by
  unfold blobOfTags
  rw [buildExifBlobCore_eq]
  simp

lemma chunkList_lower_bound :
    ∀ (tags : List ExifTag) (off : Nat) (c : Nat × List Nat),
      c ∈ extraChunkList tags off → off ≤ c.1 := by
  intro tags
  induction tags with
  | nil => intro off c hc; simp [extraChunkList] at hc
  | cons u ts ih =>
      intro off c hc
      by_cases hu : tagFitsInField u = true
      · simp only [extraChunkList, hu, if_true] at hc
        exact ih off c hc
      · have hu' : tagFitsInField u = false := by simpa using hu
        simp only [extraChunkList, hu', Bool.false_eq_true, if_false, List.mem_cons] at hc
        rcases hc with rfl | hc
        · exact le_refl off
        · have := ih _ c hc
          omega

lemma chunkList_chain :
    ∀ (tags : List ExifTag),
      (∀ t ∈ tags, tagFitsInField t = false → t.value ≠ []) →
      ∀ off, List.Chain' (fun a b : Nat × List Nat => a.1 < b.1) (extraChunkList tags off) := by
  intro tags
  induction tags with
  | nil => intro _ off; simp [extraChunkList]
  | cons u ts ih =>
      intro h off
      have hts : ∀ t ∈ ts, tagFitsInField t = false → t.value ≠ [] :=
        fun t ht => h t (List.mem_cons_of_mem _ ht)
      by_cases hu : tagFitsInField u = true
      · simp only [extraChunkList, hu, if_true]
        exact ih hts off
      · have hu' : tagFitsInField u = false := by simpa using hu
        have hval : u.value ≠ [] := h u (by simp) hu'
        have hlen : 0 < u.value.length := List.length_pos.mpr hval
        simp only [extraChunkList, hu', Bool.false_eq_true, if_false]
        rw [List.chain'_cons']
        constructor
        · intro b hb
          have hbmem : b ∈ extraChunkList ts (off + u.value.length + padLen u) :=
            List.mem_of_mem_head? hb
          have hbnd := chunkList_lower_bound ts _ b hbmem
          simp only
          omega
        · exact ih hts _

lemma chunkList_even :
    ∀ (tags : List ExifTag) (off : Nat), off % 2 = 0 →
      ∀ c ∈ extraChunkList tags off, c.1 % 2 = 0 := by
  intro tags
  induction tags with
  | nil => intro off _ c hc; simp [extraChunkList] at hc
  | cons u ts ih =>
      intro off hoff c hc
      by_cases hu : tagFitsInField u = true
      · simp only [extraChunkList, hu, if_true] at hc
        exact ih off hoff c hc
      · have hu' : tagFitsInField u = false := by simpa using hu
        simp only [extraChunkList, hu', Bool.false_eq_true, if_false, List.mem_cons] at hc
        rcases hc with rfl | hc
        · exact hoff
        · have hnext : (off + u.value.length + padLen u) % 2 = 0 := by
            unfold padLen
            split_ifs with hp
            · omega
            · omega
          exact ih _ hnext c hc

lemma extras_join :
    ∀ (tags : List ExifTag) (off : Nat),
      extrasBytes true tags =
        ((extraChunkList tags off).map
          (fun c => c.2 ++ if c.2.length % 2 ≠ 0 then [0] else [])).flatten := by
  intro tags
  induction tags with
  | nil => intro off; rfl
  | cons u ts ih =>
      intro off
      by_cases hu : tagFitsInField u = true
      · simp only [extrasBytes, extraChunkList, hu, if_true, List.nil_append]
        exact ih off
      · have hu' : tagFitsInField u = false := by simpa using hu
        simp only [extrasBytes, extraChunkList, hu', Bool.false_eq_true, if_false,
          List.map_cons, List.flatten_cons]
        rw [ih (off + u.value.length + padLen u)]
        simp [chunkBytes]

lemma getD_preamble_19 (n : Nat) :
    (preamble true n).getD 19 0 = n % 65536 % 256 := by
  have hsplit : preamble true n =
      ([0xFF, 0xE1, 0x00, 0x00] ++ [0x45, 0x78, 0x69, 0x66, 0x00, 0x00] ++
        u16Bytes 0x4D4D true ++ u16Bytes 0x2A true ++ u32Bytes 0x8 true) ++
        u16Bytes (n % 65536) true := by
    simp [preamble, List.append_assoc]
  have h18 : ([0xFF, 0xE1, 0x00, 0x00] ++ [0x45, 0x78, 0x69, 0x66, 0x00, 0x00] ++
      u16Bytes 0x4D4D true ++ u16Bytes 0x2A true ++ u32Bytes 0x8 true).length = 18 := by
    simp [length_u16Bytes, length_u32Bytes]
  rw [hsplit, List.getD_append_right _ _ _ _ (by rw [h18]; omega), h18]
  rfl

lemma getD_blobCore_19 (tags : List ExifTag) (extra0 : List Nat) :
    (buildExifBlobCore true tags extra0).1.getD 19 0 = tags.length % 65536 % 256 := by
  rw [buildExifBlobCore_eq]
  rw [getD_patchLength_ge _ _ (by omega) (by omega)]
  have h19 : (19 : Nat) < (preamble true tags.length).length := by
    rw [length_preamble]; omega
  rw [List.getD_append _ _ _ _ (by simp [length_preamble]; omega),
      List.getD_append _ _ _ _ (by simp [length_preamble]; omega),
      List.getD_append _ _ _ _ h19]
  exact getD_preamble_19 _

lemma extrasLen_singleton (t : ExifTag) : extrasLen [t] = offAdvance t := by
  simp [extrasLen]

lemma offAdvance_nofit (t : ExifTag) (h : tagFitsInField t = false) :
    offAdvance t = t.value.length + padLen t := by
  unfold offAdvance
  rw [h]
  simp

lemma padLen_zero (t : ExifTag) (h : t.value.length % 2 = 0) : padLen t = 0 := by
  unfold padLen
  simp [h]

lemma field16_core (be : Bool) (tags : List ExifTag) (extra0 : List Nat) :
    (buildExifBlobCore be tags extra0).1.getD 2 0 =
      ((buildExifBlobCore be tags extra0).1.length - 2) % 65536 / 256 % 256 ∧
    (buildExifBlobCore be tags extra0).1.getD 3 0 =
      ((buildExifBlobCore be tags extra0).1.length - 2) % 65536 % 256 := by
  rw [buildExifBlobCore_eq]
  dsimp only
  have hlen4 : 3 < (preamble be tags.length ++
      entriesBytes be tags (8 + 2 + tags.length * 12 + 4) ++ [0, 0, 0, 0] ++
      (extra0 ++ extrasBytes be tags)).length := by
    simp [length_preamble]
    omega
  rw [getD_patchLength_2 _ hlen4, getD_patchLength_3 _ hlen4, length_patchLength]
  exact ⟨rfl, rfl⟩

lemma blob_field16 (tags : List ExifTag) :
    (blobOfTags tags).getD 2 0 * 256 + (blobOfTags tags).getD 3 0 =
      ((blobOfTags tags).length - 2) % 65536 := by
  unfold blobOfTags
  obtain ⟨h2, h3⟩ := field16_core true tags []
  rw [h2, h3]
  omega

lemma hasFFDBAt_cons_succ (a : Nat) (l : List Nat) (j : Nat) :
    hasFFDBAt (a :: l) (j + 1) ↔ hasFFDBAt l j := by
  unfold hasFFDBAt
  constructor
  · rintro ⟨h1, h2, h3⟩
    exact ⟨by simp at h1; omega, h2, h3⟩
  · rintro ⟨h1, h2, h3⟩
    exact ⟨by simp; omega, h2, h3⟩

lemma findAux_some :
    ∀ (l : List Nat) (p i : Nat), hasFFDBAt l p → (∀ j < p, ¬ hasFFDBAt l j) →
      findFFDBMarkerAux l i = some (i + p)
  | [], p, _, hp, _ => by
      rcases hp with ⟨h, _⟩
      simp at h
  | [a], p, _, hp, _ => by
      rcases hp with ⟨h, _⟩
      simp at h
  | a :: b :: rest, p, i, hp, hmin => by
      unfold findFFDBMarkerAux
      by_cases hab : (a == 0xFF && b == 0xDB) = true
      · have hp0 : hasFFDBAt (a :: b :: rest) 0 := by
          simp only [Bool.and_eq_true, beq_iff_eq] at hab
          exact ⟨by simp, hab.1, hab.2⟩
        have hp_eq : p = 0 := by
          by_contra hne
          exact hmin 0 (by omega) hp0
        subst hp_eq
        simp [hab]
      · have hpne : p ≠ 0 := by
          intro h0
          subst h0
          rcases hp with ⟨_, h1, h2⟩
          exact hab (by simp [show a = 0xFF from h1, show b = 0xDB from h2])
        obtain ⟨q, rfl⟩ : ∃ q, p = q + 1 := ⟨p - 1, by omega⟩
        have hq : hasFFDBAt (b :: rest) q := (hasFFDBAt_cons_succ a _ q).mp hp
        have hqmin : ∀ j < q, ¬ hasFFDBAt (b :: rest) j := by
          intro j hj hbad
          exact hmin (j + 1) (by omega) ((hasFFDBAt_cons_succ a _ j).mpr hbad)
        rw [if_neg hab, findAux_some (b :: rest) q (i + 1) hq hqmin]
        congr 1
        omega

lemma findAux_none :
    ∀ (l : List Nat), (∀ j, ¬ hasFFDBAt l j) → ∀ i, findFFDBMarkerAux l i = none
  | [], _, _ => rfl
  | [_], _, _ => rfl
  | a :: b :: rest, hno, i => by
      unfold findFFDBMarkerAux
      have hab : ¬ (a == 0xFF && b == 0xDB) = true := by
        intro habs
        simp only [Bool.and_eq_true, beq_iff_eq] at habs
        exact hno 0 ⟨by simp, habs.1, habs.2⟩
      rw [if_neg hab]
      exact findAux_none (b :: rest)
        (fun j hbad => hno (j + 1) ((hasFFDBAt_cons_succ a _ j).mpr hbad)) (i + 1)

/-! ### Claims -/

/-- Claim C1 (refuted; code bug): the spec requires repeated `build()` calls
on the same builder to return byte-identical blobs, but the code violates
this: the `extraData` member is never cleared between calls, so the second
`buildExifBlob()` appends the extra data a second time.  For a builder
holding the single RATIONAL tag `0x829A = 1/100`, the second call returns a
blob 8 bytes longer than (hence different from) the first. -/
theorem claim1_repeated_build_differs :
    (((ExifBuilder.mk [] []).addTag
        (ExifTag.ofRational 0x829A 0x0005 1 1 100)).buildExifBlob).1 ≠
      ((((ExifBuilder.mk [] []).addTag
        (ExifTag.ofRational 0x829A 0x0005 1 1 100)).buildExifBlob).2.buildExifBlob).1 := by
  decide

/-- Claim C2, counterexample: the claimed "inline iff encoded length at most
4 and integer type, or short ASCII" is wrong about the length conjunct — the
code never checks the length for the integer types.  A tag with type code
LONG and an 8-byte value (built with the public string constructor, which
accepts any type code) is inlined: `tagFitsInField` accepts it and the built
blob has no extra-data region (36 = 24 + 12 bytes), while the claim requires
offset routing because its encoded length exceeds 4. -/
theorem claim2_counterexample :
    tagFitsInField (ExifTag.ofString 0x0000 0x0004 [49, 50, 51, 52, 53, 54, 55]) = true ∧
    (ExifTag.ofString 0x0000 0x0004 [49, 50, 51, 52, 53, 54, 55]).value.length = 8 ∧
    (blobOfTags [ExifTag.ofString 0x0000 0x0004 [49, 50, 51, 52, 53, 54, 55]]).length = 36 := by
  decide

/-- Claim C2, amended: `build()` stores a tag inline if and only if its type
is BYTE, SHORT, LONG or SLONG (regardless of the encoded value length, which
is not checked for these types), or the type is ASCII with value length at
most 4; RATIONAL, SRATIONAL and every other type are never inlined. -/
theorem claim2_amended (t : ExifTag) :
    tagFitsInField t = true ↔
      (t.type = 0x0001 ∨ t.type = 0x0003 ∨ t.type = 0x0004 ∨ t.type = 0x0009 ∨
        (t.type = 0x0002 ∧ t.value.length ≤ 4)) :=
  tagFitsInField_iff t

/-- Claim C3 (refuted; code bug): the RATIONAL tag `0x829A`, count 1,
numerator 1, denominator 100 is indeed routed to the extra-data region
(8 bytes, never inline), but on the little-endian target the extra data
holds the host `memcpy` image `01 00 00 00 64 00 00 00`, not the big-endian
bytes `00 00 00 01 00 00 00 64` the spec states: the inline integer path
byte-swaps to big-endian, but `appendExtraData` copies the value bytes
unswapped into the TIFF stream whose header declares big-endian. -/
theorem claim3_rational_extra_hostorder :
    tagFitsInField (ExifTag.ofRational 0x829A 0x0005 1 1 100) = false ∧
    (blobOfTags [ExifTag.ofRational 0x829A 0x0005 1 1 100]).drop 36 =
      [0x01, 0x00, 0x00, 0x00, 0x64, 0x00, 0x00, 0x00] ∧
    ([0x01, 0x00, 0x00, 0x00, 0x64, 0x00, 0x00, 0x00] : List Nat) ≠
      [0x00, 0x00, 0x00, 0x01, 0x00, 0x00, 0x00, 0x64] := by
  decide

/-- Claim C7 (confirmed): the SHORT tag `0x8827` with value 200 is stored
inline; the blob has no extra-data region (length 36) and the 4-byte value
field of its directory entry (blob bytes 28..31) is `00 C8 00 00`: the
16-bit value big-endian in the first two bytes, zero padding in the last
two. -/
theorem claim7_short_inline_field :
    tagFitsInField (ExifTag.ofShort 0x8827 0x0003 1 200) = true ∧
    (blobOfTags [ExifTag.ofShort 0x8827 0x0003 1 200]).length = 36 ∧
    ((blobOfTags [ExifTag.ofShort 0x8827 0x0003 1 200]).drop 28).take 4 =
      [0x00, 0xC8, 0x00, 0x00] := by
  decide

/-- Claim C8, counterexample: the builder has no Open/Built state machine.
After `build()` has completed on an (empty) builder, `addTag` is silently
accepted — the tag lands in the tag list and the next `build()` emits it
(the entry count byte of the next blob is 1) — instead of being rejected
with an "already built" error as the claim states. -/
theorem claim8_counterexample :
    ((((ExifBuilder.mk [] []).buildExifBlob).2.addTag
        (ExifTag.ofShort 0x8827 0x0003 1 200)).tags =
      [ExifTag.ofShort 0x8827 0x0003 1 200]) ∧
    (((((ExifBuilder.mk [] []).buildExifBlob).2.addTag
        (ExifTag.ofShort 0x8827 0x0003 1 200)).buildExifBlob).1.getD 19 0 = 1) := by
  decide

/-- Claim C8, amended: the builder follows no state machine: `addTag` after
a completed `build()` is silently accepted, appending the tag to the list,
and a subsequent `build()` includes it (its entry-count byte reflects the
grown list); no "already built" error exists in the code. -/
theorem claim8_amended (b : ExifBuilder) (t : ExifTag) :
    ((b.buildExifBlob).2.addTag t).tags = b.tags ++ [t] ∧
    ((((b.buildExifBlob).2.addTag t).buildExifBlob).1.getD 19 0 =
      (b.tags.length + 1) % 65536 % 256) := by
  constructor
  · simp [ExifBuilder.buildExifBlob, ExifBuilder.addTag]
  · simp only [ExifBuilder.buildExifBlob, ExifBuilder.addTag]
    rw [getD_blobCore_19]
    simp

/-- Claim C10 (confirmed): `writeTagValue` indexes `tag.value[0]` for BYTE,
`[0]`/`[1]` for SHORT and `[0]`..`[3]` for LONG/SLONG with no bounds check.
Under the data-model invariant `value.length = count * unitSize type` with
`count ≥ 1`, every index read for an inline-routed tag is in bounds; a tag
violating the invariant — SHORT type code with fewer than 2 value bytes —
makes the access out of bounds. -/
theorem claim10_write_access :
    (∀ t : ExifTag, t.value.length = t.count * unitSize t.type → 1 ≤ t.count →
      tagFitsInField t = true → writeAccessOK t = true) ∧
    (∀ t : ExifTag, t.type = 0x0003 → t.value.length < 2 → writeAccessOK t = false) := by
  constructor
  · intro t hlen hcnt hfit
    rcases (tagFitsInField_iff t).mp hfit with h | h | h | h | ⟨h, _⟩
    · simp only [h, unitSize] at hlen
      simp [writeAccessOK, h]
      omega
    · simp only [h, unitSize] at hlen
      simp [writeAccessOK, h]
      omega
    · simp only [h, unitSize] at hlen
      simp [writeAccessOK, h]
      omega
    · simp only [h, unitSize] at hlen
      simp [writeAccessOK, h]
      omega
    · simp [writeAccessOK, h]
  · intro t h2 hlt
    simp [writeAccessOK, h2]
    omega

/-- Claim C10, witness: the SHORT tag `0x8827 = 200` satisfies the length
invariant and passes the bounds check; a SHORT-typed tag holding a single
byte fails it. -/
theorem claim10_witness :
    writeAccessOK (ExifTag.ofShort 0x8827 0x0003 1 200) = true ∧
    writeAccessOK (ExifTag.mk 0x0000 0x0003 1 [5]) = false := by
  constructor
  · exact claim10_write_access.1 (ExifTag.ofShort 0x8827 0x0003 1 200)
      (by decide) (by decide) (by decide)
  · exact claim10_write_access.2 (ExifTag.mk 0x0000 0x0003 1 [5]) (by decide) (by decide)

/-- Claim C4, counterexample: for the single RATIONAL tag `0x829A = 1/100`
(directory of N = 1 entries) the 4-byte field of its directory entry decodes
to 26 = 8 + 2 + 12·1 + 4, the TIFF-relative data offset — smaller than the
claimed lower bound 20 + 12·N + 4 = 36, so the claim's bound is false as
stated. -/
theorem claim4_counterexample :
    decodeBE32 (blobOfTags [ExifTag.ofRational 0x829A 0x0005 1 1 100]) (20 + 12 * 0 + 8) = 26 ∧
    ¬ (20 + 12 * 1 + 4 ≤ 26) := by
  decide

/-- Claim C4, amended: for every tag routed to the extra-data region in a
directory of N entries, the 4-byte field of its directory entry is an offset
of at least `8 + 2 + 12·N + 4` (an offset relative to the TIFF header, which
starts at blob position 10), and the blob bytes at position `10 + offset`
equal the tag's raw value bytes — provided every inlined ASCII tag carries
exactly 4 value bytes (a shorter inline ASCII value makes the code emit an
entry of fewer than 12 bytes, shifting the whole layout) and the total data
offset stays below 2^32. -/
theorem claim4_amended (tags : List ExifTag)
    (hA : ∀ u ∈ tags, tagFitsInField u = true → u.type = 0x0002 → u.value.length = 4)
    (hW : 8 + 2 + tags.length * 12 + 4 + extrasLen tags < 4294967296)
    (i : Nat) (t : ExifTag) (hget : tags.get? i = some t)
    (hfit : tagFitsInField t = false) :
    8 + 2 + tags.length * 12 + 4 ≤ decodeBE32 (blobOfTags tags) (20 + 12 * i + 8) ∧
    ((blobOfTags tags).drop (10 + decodeBE32 (blobOfTags tags) (20 + 12 * i + 8))).take
        t.value.length = t.value := by
  have hi : i < tags.length := by
    by_contra hcon
    rw [List.get?_eq_none.2 (by omega)] at hget
    simp at hget
  have hEl : (entriesBytes true tags (8 + 2 + tags.length * 12 + 4)).length =
      12 * tags.length := by
    rw [length_entriesBytes, entriesLen_wf tags hA]
  have hdec : decodeBE32 (blobOfTags tags) (20 + 12 * i + 8) =
      (8 + 2 + tags.length * 12 + 4) + extrasLen (tags.take i) := by
    rw [blobOfTags_eq, decodeBE32_patchLength _ _ (by omega)]
    rw [decodeBE32_append_left _ _ _ (by simp [length_preamble, hEl]; omega)]
    rw [decodeBE32_append_left _ _ _ (by simp [length_preamble, hEl]; omega)]
    rw [show 20 + 12 * i + 8 = (preamble true tags.length).length + (12 * i + 8) by
      rw [length_preamble]; omega]
    rw [decodeBE32_append_right]
    exact entries_field_decode tags i t _ hA hget hfit (by omega)
  refine ⟨by rw [hdec]; omega, ?_⟩
  rw [hdec, blobOfTags_eq]
  rw [drop_patchLength _ _ (by omega)]
  have hPEZ : ((preamble true tags.length ++
      entriesBytes true tags (8 + 2 + tags.length * 12 + 4)) ++ [0, 0, 0, 0]).length =
      24 + 12 * tags.length := by
    simp [length_preamble, hEl]
    omega
  rw [show 10 + (8 + 2 + tags.length * 12 + 4 + extrasLen (tags.take i)) =
      ((preamble true tags.length ++
        entriesBytes true tags (8 + 2 + tags.length * 12 + 4)) ++ [0, 0, 0, 0]).length +
        extrasLen (tags.take i) by rw [hPEZ]; omega]
  rw [List.drop_append]
  exact extras_slice tags i t hget hfit

/-- Claim C4, witness: the amended statement evaluated for the single
RATIONAL tag `0x829A = 1/100`: the stored offset is at least 26 and the blob
bytes at position `10 + offset` are the tag's raw 8 value bytes. -/
theorem claim4_witness :
    8 + 2 + [ExifTag.ofRational 0x829A 0x0005 1 1 100].length * 12 + 4 ≤
      decodeBE32 (blobOfTags [ExifTag.ofRational 0x829A 0x0005 1 1 100]) (20 + 12 * 0 + 8) ∧
    ((blobOfTags [ExifTag.ofRational 0x829A 0x0005 1 1 100]).drop
        (10 + decodeBE32 (blobOfTags [ExifTag.ofRational 0x829A 0x0005 1 1 100])
          (20 + 12 * 0 + 8))).take
        (ExifTag.ofRational 0x829A 0x0005 1 1 100).value.length =
      (ExifTag.ofRational 0x829A 0x0005 1 1 100).value :=
  claim4_amended [ExifTag.ofRational 0x829A 0x0005 1 1 100] (by decide) (by decide) 0
    (ExifTag.ofRational 0x829A 0x0005 1 1 100) rfl (by decide)

/-- Claim C5, counterexample: for a blob longer than 65537 bytes the 16-bit
length field cannot equal `length − 2`: a single ASCII tag with a
65600-byte value yields a 65636-byte blob whose length field holds
`65634 mod 2^16 = 98`, not 65634 — the cast to `uint16_t` truncates. -/
theorem claim5_counterexample :
    (blobOfTags [ExifTag.ofString 0x010F 0x0002 (List.replicate 65599 65)]).getD 2 0 * 256 +
        (blobOfTags [ExifTag.ofString 0x010F 0x0002 (List.replicate 65599 65)]).getD 3 0 ≠
      (blobOfTags [ExifTag.ofString 0x010F 0x0002 (List.replicate 65599 65)]).length - 2 := by
  have hval : (ExifTag.ofString 0x010F 0x0002 (List.replicate 65599 65)).value.length =
      65600 := by
    show (List.replicate 65599 65 ++ [0]).length = 65600
    rw [List.length_append, List.length_replicate, List.length_cons, List.length_nil]
  have htype : (ExifTag.ofString 0x010F 0x0002 (List.replicate 65599 65)).type = 0x0002 := rfl
  have hfit : tagFitsInField (ExifTag.ofString 0x010F 0x0002 (List.replicate 65599 65)) =
      false := by
    rw [Bool.eq_false_iff]
    intro hcon
    rcases (tagFitsInField_iff _).mp hcon with h | h | h | h | ⟨_, hle⟩
    · rw [htype] at h; omega
    · rw [htype] at h; omega
    · rw [htype] at h; omega
    · rw [htype] at h; omega
    · rw [hval] at hle; omega
  have hent : entriesLen [ExifTag.ofString 0x010F 0x0002 (List.replicate 65599 65)] = 12 := by
    have h := entriesLen_wf [ExifTag.ofString 0x010F 0x0002 (List.replicate 65599 65)]
      (by intro u hu hfitu htyu
          rw [List.mem_singleton] at hu
          rw [hu, hfit] at hfitu
          cases hfitu)
    rw [h, List.length_singleton]
  have hext : extrasLen [ExifTag.ofString 0x010F 0x0002 (List.replicate 65599 65)] =
      65600 := by
    rw [extrasLen_singleton, offAdvance_nofit _ hfit,
      padLen_zero _ (by rw [hval]), hval]
  have hblen : (blobOfTags [ExifTag.ofString 0x010F 0x0002 (List.replicate 65599 65)]).length
      = 65636 := by
    unfold blobOfTags
    rw [length_blobCore, hent, hext, List.length_nil]
  rw [blob_field16, hblen]
  omega

/-- Claim C5, amended: the APP1 length field at blob bytes 2–3 holds
`(length(blob) − 2) mod 2^16`, written big-endian — the high byte at offset
2, the low byte at offset 3 — for either value of the internal TIFF
byte-order flag and for every builder state; it equals `length − 2` exactly
when the blob is at most 65537 bytes. -/
theorem claim5_amended (bigendian : Bool) (tags : List ExifTag) (extra0 : List Nat) :
    (buildExifBlobCore bigendian tags extra0).1.getD 2 0 * 256 +
        (buildExifBlobCore bigendian tags extra0).1.getD 3 0 =
      ((buildExifBlobCore bigendian tags extra0).1.length - 2) % 65536 ∧
    (buildExifBlobCore bigendian tags extra0).1.getD 2 0 =
      ((buildExifBlobCore bigendian tags extra0).1.length - 2) % 65536 / 256 % 256 ∧
    (buildExifBlobCore bigendian tags extra0).1.getD 3 0 =
      ((buildExifBlobCore bigendian tags extra0).1.length - 2) % 65536 % 256 := by
  obtain ⟨h2, h3⟩ := field16_core bigendian tags extra0
  refine ⟨?_, h2, h3⟩
  rw [h2, h3]
  omega

/-- Claim C6 (confirmed for nonempty values, which every `ExifTag`
constructor produces): each value appended to the extra-data region is
followed by exactly one zero padding byte when its length is odd (the
flatten equation), `dataOffset` advances by the padding too (the fold's
final offset is the start plus the extra-data length), the offsets assigned
in tag-visitation order are strictly increasing, and every extra-data value
begins at an even offset. -/
theorem claim6_extra_layout (tags : List ExifTag)
    (h : ∀ t ∈ tags, tagFitsInField t = false → t.value ≠ []) :
    List.Chain' (fun a b : Nat × List Nat => a.1 < b.1)
        (extraChunkList tags (8 + 2 + tags.length * 12 + 4)) ∧
    (∀ c ∈ extraChunkList tags (8 + 2 + tags.length * 12 + 4), c.1 % 2 = 0) ∧
    extrasBytes true tags =
      ((extraChunkList tags (8 + 2 + tags.length * 12 + 4)).map
        (fun c => c.2 ++ if c.2.length % 2 ≠ 0 then [0] else [])).flatten ∧
    (∀ (blob0 extra0 : List Nat),
      (tags.foldl (processTag true) (blob0, extra0, 8 + 2 + tags.length * 12 + 4)).2.2 =
        8 + 2 + tags.length * 12 + 4 + extrasLen tags) := by
  refine ⟨chunkList_chain tags h _, chunkList_even tags _ (by omega), extras_join tags _, ?_⟩
  intro blob0 extra0
  rw [foldl_processTag]

/-- Claim C6, witness: the layout properties evaluated for a builder holding
the RATIONAL tag `0x829A = 1/100` followed by the ASCII tag `"Ximea"`. -/
theorem claim6_witness :
    List.Chain' (fun a b : Nat × List Nat => a.1 < b.1)
        (extraChunkList
          [ExifTag.ofRational 0x829A 0x0005 1 1 100,
            ExifTag.ofString 0x010F 0x0002 [88, 105, 109, 101, 97]]
          (8 + 2 + [ExifTag.ofRational 0x829A 0x0005 1 1 100,
            ExifTag.ofString 0x010F 0x0002 [88, 105, 109, 101, 97]].length * 12 + 4)) ∧
    extrasBytes true
        [ExifTag.ofRational 0x829A 0x0005 1 1 100,
          ExifTag.ofString 0x010F 0x0002 [88, 105, 109, 101, 97]] =
      ((extraChunkList
          [ExifTag.ofRational 0x829A 0x0005 1 1 100,
            ExifTag.ofString 0x010F 0x0002 [88, 105, 109, 101, 97]]
          (8 + 2 + [ExifTag.ofRational 0x829A 0x0005 1 1 100,
            ExifTag.ofString 0x010F 0x0002 [88, 105, 109, 101, 97]].length * 12 + 4)).map
        (fun c => c.2 ++ if c.2.length % 2 ≠ 0 then [0] else [])).flatten ∧
    (([ExifTag.ofRational 0x829A 0x0005 1 1 100,
        ExifTag.ofString 0x010F 0x0002 [88, 105, 109, 101, 97]].foldl (processTag true)
        ([], [], 8 + 2 + [ExifTag.ofRational 0x829A 0x0005 1 1 100,
          ExifTag.ofString 0x010F 0x0002 [88, 105, 109, 101, 97]].length * 12 + 4)).2.2 =
      8 + 2 + [ExifTag.ofRational 0x829A 0x0005 1 1 100,
        ExifTag.ofString 0x010F 0x0002 [88, 105, 109, 101, 97]].length * 12 + 4 +
        extrasLen [ExifTag.ofRational 0x829A 0x0005 1 1 100,
          ExifTag.ofString 0x010F 0x0002 [88, 105, 109, 101, 97]]) := by
  have hc := claim6_extra_layout
    [ExifTag.ofRational 0x829A 0x0005 1 1 100,
      ExifTag.ofString 0x010F 0x0002 [88, 105, 109, 101, 97]] (by decide)
  exact ⟨hc.1, hc.2.2.1, hc.2.2.2 [] []⟩

/-- Claim C9 (confirmed): the injector splices the blob into the source byte
stream immediately before the first `FF DB` marker pair found scanning from
byte 0 — the output is the source bytes before that index, the blob, then
the remaining source bytes — and it fails with an error exactly when no such
pair exists.  (Reading the source from disk is outside the embedding; the
source bytes are given.) -/
theorem claim9_injector (src blob : List Nat) :
    (∀ p, hasFFDBAt src p → (∀ j < p, ¬ hasFFDBAt src j) →
      writeNewJpegWithExif src blob = Except.ok (src.take p ++ blob ++ src.drop p)) ∧
    ((∀ j, ¬ hasFFDBAt src j) →
      writeNewJpegWithExif src blob = Except.error "FFDB marker not found.") := by
  constructor
  · intro p hp hmin
    unfold writeNewJpegWithExif findFFDBMarker
    rw [findAux_some src p 0 hp hmin]
    simp
  · intro hno
    unfold writeNewJpegWithExif findFFDBMarker
    rw [findAux_none src hno 0]

/-- Claim C9, witness: splicing `[7]` into `[FF, DB]` puts the blob before
the marker; a source with no `FF DB` pair produces the error. -/
theorem claim9_witness :
    writeNewJpegWithExif [0xFF, 0xDB] [7] = Except.ok [7, 0xFF, 0xDB] ∧
    writeNewJpegWithExif [1, 2] [7] = Except.error "FFDB marker not found." := by
  constructor
  · have h := (claim9_injector [0xFF, 0xDB] [7]).1 0 (by decide)
      (fun j hj => absurd hj (Nat.not_lt_zero j))
    simpa using h
  · exact (claim9_injector [1, 2] [7]).2 (by
      intro j hbad
      rcases hbad with ⟨h1, h2, h3⟩
      have hj : j = 0 := by simp at h1; omega
      subst hj
      simp [List.getD] at h2)

end MicroExif
